import Mathlib

/-!
Verification development for the receipt-input-app core.

This file gives a shallow embedding, in Lean 4, of the algorithmic core of the
repository (the column codec, the column-mapping model, the receipt text
interpreter and the row builder, all from `src/backend/src`), together with
theorems settling the frozen claims C1..C10 about that code.

Conventions of the embedding:
* Python strings are modelled as `List Char`; text helpers (`str.lower`,
  `str.strip`, `str.split`, `str.replace`, substring test `in`) are modelled
  by functions prefixed `py`, with ASCII scope where Python is Unicode-aware
  (the claims only exercise ASCII data; theorems that depend on the scope
  carry an explicit ASCII hypothesis).
* Python `Decimal` values are modelled as `ℚ`; the fixed confidence constants
  0.9, 0.85, 0.95, 0.75, 0.7 are modelled as the corresponding rationals.
* Regular-expression use in the source is modelled by a small executable
  backtracking matcher (`RE`, `reMatch`) whose alternative order encodes
  Python's greedy, leftmost-match backtracking semantics; unbounded
  repetitions `+`/`*` are unrolled to the length of the subject string, which
  is an exact bound since every repeated body consumes at least one character.
* The third-party `dateutil` parser is an external collaborator of this core;
  it is modelled as an explicit function parameter `du` wherever the source
  calls it.
-/

/-! ## Python string primitives (ASCII scope) -/

/-- Python whitespace class `\s`, ASCII part: space, tab, newline, carriage
return, form feed, vertical tab. -/
def isPySpace (c : Char) : Bool :=
  c = ' ' || c = '\t' || c = '\n' || c = '\x0d' || c = '\x0c' || c = '\x0b'

/-- Character class `[A-Z]`. -/
def isUpperLetter (c : Char) : Bool :=
  65 ≤ c.toNat && c.toNat ≤ 90

/-- Character class `[a-z]`. -/
def isLowerLetter (c : Char) : Bool :=
  97 ≤ c.toNat && c.toNat ≤ 122

/-- Character class `[A-Za-z]` (ASCII letters). -/
def isAsciiLetter (c : Char) : Bool :=
  isUpperLetter c || isLowerLetter c

/-- Character class `\d` (ASCII digits; the OCR texts of the claims are ASCII). -/
def isAsciiDigit (c : Char) : Bool :=
  48 ≤ c.toNat && c.toNat ≤ 57

/-- Python `str.lower()`, ASCII scope: map `A`-`Z` to `a`-`z`. -/
def pyLower (s : List Char) : List Char :=
  s.map fun c => if isUpperLetter c then Char.ofNat (c.toNat + 32) else c

/-- Python `str.strip()`: remove leading and trailing whitespace. -/
def pyStrip (s : List Char) : List Char :=
  ((s.dropWhile isPySpace).reverse.dropWhile isPySpace).reverse

/-- Python `str.replace(old, new)` for a one-character `old`: every occurrence
of `old` is replaced by the (possibly empty) string `new`. -/
def pyReplace (s : List Char) (old : Char) (new : List Char) : List Char :=
  s.flatMap fun c => if c = old then new else [c]

/-- Python `str.split(sep)` for a one-character separator: split at every
occurrence, keeping empty parts. -/
def pySplitChar (sep : Char) : List Char → List (List Char)
  | [] => [[]]
  | c :: rest =>
    let parts := pySplitChar sep rest
    if c = sep then [] :: parts
    else match parts with
      | [] => [[c]]
      | p :: ps => (c :: p) :: ps

/-- Python `str.split()` with no argument: split on runs of whitespace,
discarding empty parts. -/
def pySplitWS (s : List Char) : List (List Char) :=
  let rec go : List Char → List (List Char)
    | [] => []
    | c :: rest =>
      if isPySpace c then go rest
      else match go rest with
        | [] => [[c]]
        | p :: ps =>
          match rest with
          | [] => [[c]]
          | d :: _ => if isPySpace d then [c] :: p :: ps else (c :: p) :: ps
  go s

/-- Python substring test `needle in hay`. -/
def pyContains (hay needle : List Char) : Bool :=
  decide (needle <:+: hay)

/-- Python `str.rindex(c)` (index of the last occurrence); only meaningful when
`c` occurs in `s`, as at its use sites in the source. -/
def pyRindex (s : List Char) (c : Char) : Nat :=
  s.length - 1 - s.reverse.findIdx (· = c)

/-- An exact nonnegative decimal number, as carried by Python's
`decimal.Decimal` for the strings this code base parses: a mantissa and a
decimal scale, denoting `num / 10 ^ scale`.  This representation keeps every
comparison inside natural-number arithmetic. -/
structure Dec where
  num : Nat
  scale : Nat
deriving DecidableEq

/-- Numeric strict order on decimals (`Decimal` comparison is numeric). -/
def Dec.lt (a b : Dec) : Bool :=
  a.num * 10 ^ b.scale < b.num * 10 ^ a.scale

/-- Numeric equality on decimals: `15.95` and `1595` differ, while `1.50` and
`1.5` coincide. -/
def Dec.eqNum (a b : Dec) : Bool :=
  a.num * 10 ^ b.scale = b.num * 10 ^ a.scale

/-- The rational value of a decimal. -/
def Dec.toRat (a : Dec) : ℚ :=
  (a.num : ℚ) / 10 ^ a.scale

/-- Python `max` of two decimals: the second only when it is strictly larger,
so the first of numerically equal elements wins, as with Python `max`. -/
def Dec.max2 (a b : Dec) : Dec :=
  if Dec.lt a b then b else a

/-- Python `Decimal(s)` restricted to the shapes that reach it in this code
base (strings of digits, dots, commas and spaces): all digits, or digits
around a single dot with at least one digit present; everything else raises,
modelled as `none`. -/
def pyDecimal (s : List Char) : Option Dec :=
  match pySplitChar '.' s with
  | [w] =>
    if w ≠ [] && w.all isAsciiDigit then
      some ⟨Nat.ofDigits 10 (w.map (fun c => c.toNat - 48)).reverse, 0⟩
    else none
  | [w, f] =>
    if (w ++ f) ≠ [] && (w ++ f).all isAsciiDigit then
      some ⟨Nat.ofDigits 10 ((w ++ f).map (fun c => c.toNat - 48)).reverse, f.length⟩
    else none
  | _ => none

/-! ## ColumnValidator (`src/backend/src/services/column_validator.py`) -/

namespace ColumnValidator

/-- `ColumnValidator.to_index`: convert a column reference to a zero-based
index.  The source computes with `ord(c) - ord('A')`, which can be negative
for non-letter characters, so the result is an `Int`.  The source is undefined
on the empty string (it would raise `IndexError`); that case is given the junk
value 0 and is outside every theorem's hypotheses. -/
def to_index : List Char → Int
  | [] => 0
  | [c] => (c.toNat : Int) - 65
  | c1 :: c2 :: _ => ((c1.toNat : Int) - 65 + 1) * 26 + ((c2.toNat : Int) - 65)

/-- `ColumnValidator.from_index`: convert a zero-based index to a column
reference. -/
def from_index (index : Nat) : List Char :=
  if index < 26 then [Char.ofNat (65 + index)]
  else [Char.ofNat (65 + (index / 26 - 1)), Char.ofNat (65 + index % 26)]

/-- Python `str.isupper()`, ASCII scope: at least one cased character and no
lowercase character (cased characters in ASCII are exactly the letters). -/
def pyIsUpper (s : List Char) : Bool :=
  s.any isAsciiLetter && s.all fun c => !(isLowerLetter c)

/-- Python `str.isalpha()`, ASCII scope: nonempty and all letters. -/
def pyIsAlpha (s : List Char) : Bool :=
  !s.isEmpty && s.all isAsciiLetter

/-- Match of the compiled pattern `^[A-Z]{1,2}$` via `re.match`.  Python's `$`
matches at the end of the subject or just before a single trailing newline, so
the accepted strings are one or two uppercase letters, optionally followed by
exactly one final `'\n'`. -/
def regexColMatch : List Char → Bool
  | [a] => isUpperLetter a
  | [a, b] => isUpperLetter a && (isUpperLetter b || b = '\n')
  | [a, b, c] => isUpperLetter a && isUpperLetter b && c = '\n'
  | _ => false

/-- `ColumnValidator.MAX_COLUMN_INDEX`. -/
def MAX_COLUMN_INDEX : Int := 701

/-- `ColumnValidator.validate`: special-cased out-of-range check for 3+
uppercase alphabetic strings, then the format regex, then the range check. -/
def validate (column_ref : List Char) : Bool × Option (List Char) :=
  if 2 < column_ref.length && pyIsUpper column_ref && pyIsAlpha column_ref then
    (false, some "COLUMN_OUT_OF_RANGE".data)
  else if !(regexColMatch column_ref) then
    (false, some "INVALID_COLUMN_FORMAT".data)
  else if MAX_COLUMN_INDEX < to_index column_ref then
    (false, some "COLUMN_OUT_OF_RANGE".data)
  else
    (true, none)

end ColumnValidator

/-- A valid column reference in the sense of the spec's data model: a string
of one or two uppercase letters. -/
def isColRefShape : List Char → Bool
  | [a] => isUpperLetter a
  | [a, b] => isUpperLetter a && isUpperLetter b
  | _ => false

/-! ### Helper lemmas about characters -/

theorem char_ofNat_toNat (c : Char) : Char.ofNat c.toNat = c := by
  have hv : c.val.isValidChar := c.valid
  have h2 : Nat.isValidChar c.toNat := by
    rcases hv with h | ⟨h1, h2⟩
    · exact Or.inl h
    · exact Or.inr ⟨h1, h2⟩
  unfold Char.ofNat
  rw [dif_pos h2]
  apply Char.ext
  show (Char.ofNatAux c.toNat h2).val = c.val
  unfold Char.ofNatAux
  simp only [UInt32.ofNat', Char.toNat]
  apply UInt32.ext
  simp [UInt32.toNat]

theorem char_toNat_ofNat_letter : ∀ k : Nat, k < 26 → (Char.ofNat (65 + k)).toNat = 65 + k := by
  decide

namespace ColumnValidator

theorem from_index_to_index (r : List Char) (h : isColRefShape r = true) :
    from_index (to_index r).toNat = r := by
  match r with
  | [] => simp [isColRefShape] at h
  | [a] =>
    simp only [isColRefShape, isUpperLetter, Bool.and_eq_true, decide_eq_true_eq] at h
    have ha : (to_index [a]).toNat = a.toNat - 65 := by
      simp only [to_index]; omega
    rw [ha]
    have hlt : a.toNat - 65 < 26 := by omega
    rw [from_index, if_pos hlt]
    have : 65 + (a.toNat - 65) = a.toNat := by omega
    rw [this, char_ofNat_toNat]
  | [a, b] =>
    simp only [isColRefShape, isUpperLetter, Bool.and_eq_true, decide_eq_true_eq] at h
    obtain ⟨⟨ha1, ha2⟩, hb1, hb2⟩ := h
    have hv : (to_index [a, b]).toNat = (a.toNat - 64) * 26 + (b.toNat - 65) := by
      simp only [to_index]; omega
    rw [hv]
    have hge : ¬((a.toNat - 64) * 26 + (b.toNat - 65) < 26) := by
      have h1 : 1 ≤ a.toNat - 64 := by omega
      have h2 : 26 ≤ (a.toNat - 64) * 26 := Nat.le_mul_of_pos_left 26 h1
      omega
    rw [from_index, if_neg hge]
    have hdiv : ((a.toNat - 64) * 26 + (b.toNat - 65)) / 26 - 1 = a.toNat - 65 := by omega
    have hmod : ((a.toNat - 64) * 26 + (b.toNat - 65)) % 26 = b.toNat - 65 := by omega
    rw [hdiv, hmod]
    have e1 : 65 + (a.toNat - 65) = a.toNat := by omega
    have e2 : 65 + (b.toNat - 65) = b.toNat := by omega
    rw [e1, e2, char_ofNat_toNat, char_ofNat_toNat]
  | a :: b :: c :: rest => simp [isColRefShape] at h

theorem to_index_from_index (i : Nat) (h : i < 702) :
    to_index (from_index i) = (i : Int) := by
  by_cases hlt : i < 26
  · rw [from_index, if_pos hlt]
    rw [to_index, char_toNat_ofNat_letter i hlt]
    omega
  · rw [from_index, if_neg hlt]
    have hq1 : i / 26 - 1 < 26 := by omega
    have hq2 : i % 26 < 26 := Nat.mod_lt _ (by norm_num)
    rw [to_index, char_toNat_ofNat_letter _ hq1, char_toNat_ofNat_letter _ hq2]
    have hd : 26 * (i / 26) + i % 26 = i := Nat.div_add_mod i 26
    have h1 : 1 ≤ i / 26 := by omega
    push_cast
    omega

end ColumnValidator

namespace ColumnValidator

theorem regex_implies_index_le (s : List Char) (h : regexColMatch s = true) :
    to_index s ≤ 701 := by
  match s with
  | [a] =>
    simp only [regexColMatch, isUpperLetter, Bool.and_eq_true, decide_eq_true_eq] at h
    simp only [to_index]
    omega
  | [a, b] =>
    simp only [regexColMatch, isUpperLetter, Bool.and_eq_true, Bool.or_eq_true,
      decide_eq_true_eq] at h
    obtain ⟨⟨ha1, ha2⟩, hb⟩ := h
    have hbn : b.toNat ≤ 90 := by
      rcases hb with ⟨_, h2⟩ | he
      · exact h2
      · subst he; decide
    simp only [to_index]
    omega
  | [a, b, c] =>
    simp only [regexColMatch, isUpperLetter, Bool.and_eq_true, decide_eq_true_eq] at h
    obtain ⟨⟨ha1, ha2⟩, ⟨hb1, hb2⟩, _⟩ := h
    simp only [to_index]
    omega
  | [] => simp [regexColMatch] at h
  | a :: b :: c :: d :: rest => simp [regexColMatch] at h

theorem precheck_iff (s : List Char) :
    (2 < s.length && pyIsUpper s && pyIsAlpha s) = true ↔
      (2 < s.length ∧ s.all isUpperLetter = true) := by
  constructor
  · intro h
    simp only [pyIsUpper, pyIsAlpha, Bool.and_eq_true, decide_eq_true_eq] at h
    obtain ⟨⟨hlen, _, hnl⟩, _, halpha⟩ := h
    refine ⟨hlen, ?_⟩
    rw [List.all_eq_true] at halpha hnl ⊢
    intro c hc
    have h1 := halpha c hc
    have h2 := hnl c hc
    simp only [isAsciiLetter, isUpperLetter, isLowerLetter, Bool.or_eq_true, Bool.and_eq_true,
      Bool.not_eq_true', Bool.and_eq_false_iff, decide_eq_true_eq, decide_eq_false_iff_not] at h1 h2 ⊢
    omega
  · intro ⟨hlen, hup⟩
    have hne : s ≠ [] := by
      intro he; subst he; simp at hlen
    simp only [pyIsUpper, pyIsAlpha, Bool.and_eq_true, decide_eq_true_eq]
    rw [List.all_eq_true] at hup
    refine ⟨⟨hlen, ?_, ?_⟩, ?_, ?_⟩
    · rw [List.any_eq_true]
      match s, hne with
      | c :: rest, _ =>
        refine ⟨c, List.mem_cons_self c rest, ?_⟩
        have := hup c (List.mem_cons_self c rest)
        simp only [isAsciiLetter, Bool.or_eq_true]
        exact Or.inl this
    · rw [List.all_eq_true]
      intro c hc
      have := hup c hc
      simp only [isUpperLetter, Bool.and_eq_true, decide_eq_true_eq] at this
      simp only [isLowerLetter, Bool.not_eq_true', Bool.and_eq_false_iff,
        decide_eq_false_iff_not]
      omega
    · simp [hne]
    · rw [List.all_eq_true]
      intro c hc
      have := hup c hc
      simp only [isUpperLetter, Bool.and_eq_true, decide_eq_true_eq] at this
      simp only [isAsciiLetter, isUpperLetter, Bool.or_eq_true, Bool.and_eq_true,
        decide_eq_true_eq]
      omega

theorem precheck_not_regex (s : List Char)
    (h : (2 < s.length && pyIsUpper s && pyIsAlpha s) = true) :
    regexColMatch s = false := by
  rw [precheck_iff] at h
  obtain ⟨hlen, hup⟩ := h
  match s with
  | [] => simp at hlen
  | [a] => simp at hlen
  | [a, b] => simp at hlen
  | [a, b, c] =>
    rw [List.all_eq_true] at hup
    have hc := hup c (by simp)
    simp only [isUpperLetter, Bool.and_eq_true, decide_eq_true_eq] at hc
    simp only [regexColMatch, Bool.and_eq_false_iff]
    right
    have : c ≠ '\n' := by
      intro he; subst he; revert hc; decide
    simp [this]
  | a :: b :: c :: d :: rest => simp [regexColMatch]

end ColumnValidator

/-- Claim C1: the column codec is a two-sided inverse on its valid domain:
`from_index (to_index r) = r` for every 1-2 uppercase-letter reference `r`,
`to_index (from_index i) = i` for every index `i` in `[0, 701]`, and the five
anchor values `A=0`, `Z=25`, `AA=26`, `AZ=51`, `ZZ=701` hold. -/
theorem C1_column_codec_two_sided_inverse :
    (∀ r : List Char, isColRefShape r = true →
      ColumnValidator.from_index (ColumnValidator.to_index r).toNat = r)
    ∧ (∀ i : Nat, i < 702 →
      ColumnValidator.to_index (ColumnValidator.from_index i) = (i : Int))
    ∧ ColumnValidator.to_index "A".data = 0
    ∧ ColumnValidator.to_index "Z".data = 25
    ∧ ColumnValidator.to_index "AA".data = 26
    ∧ ColumnValidator.to_index "AZ".data = 51
    ∧ ColumnValidator.to_index "ZZ".data = 701 :=
  ⟨ColumnValidator.from_index_to_index, ColumnValidator.to_index_from_index,
    by decide, by decide, by decide, by decide, by decide⟩

/-- Witness for C1 at concrete inputs: decode-encode at `"AZ"` and
encode-decode at index 701. -/
theorem C1_column_codec_witness :
    ColumnValidator.from_index (ColumnValidator.to_index "AZ".data).toNat = "AZ".data
    ∧ ColumnValidator.to_index (ColumnValidator.from_index 701) = (701 : Int) :=
  ⟨C1_column_codec_two_sided_inverse.1 "AZ".data (by decide),
    C1_column_codec_two_sided_inverse.2.1 701 (by decide)⟩

/-- Claim C3 fails as stated: the claim says every string that is not 1-2
uppercase letters and not 3+ uppercase letters is classified
`INVALID_COLUMN_FORMAT`, but the compiled pattern `^[A-Z]{1,2}$` also matches
one or two uppercase letters followed by a single trailing newline (Python `$`
matches just before a final newline), and such a string then passes the range
check, because `to_index "A\n" = -29 ≤ 701`.  So `validate "A\n"` returns
valid. -/
theorem C3_validate_counterexample :
    ¬ (∀ s : List Char, s.all (fun c => c.toNat < 128) = true →
        isColRefShape s = false →
        ¬(2 < s.length ∧ s.all isUpperLetter = true) →
        ColumnValidator.validate s = (false, some "INVALID_COLUMN_FORMAT".data)) := by
  intro h
  have := h ['A', '\n'] (by decide) (by decide) (by decide)
  revert this
  decide

/-- Claim C3, amended: over ASCII inputs, `validate` classifies a string as
`COLUMN_OUT_OF_RANGE` exactly when it is 3 or more uppercase letters, as valid
exactly when the format pattern accepts it -- that is, 1-2 uppercase letters
*optionally followed by one trailing newline*, the newline being admitted by
Python's `$` -- and as `INVALID_COLUMN_FORMAT` exactly otherwise; the range
check performed after the format check never fires, since every
pattern-accepted string encodes to an index at most 701. -/
theorem C3_validate_classification_amended (s : List Char)
    (hascii : s.all (fun c => c.toNat < 128) = true) :
    (ColumnValidator.validate s = (false, some "COLUMN_OUT_OF_RANGE".data)
      ↔ (2 < s.length ∧ s.all isUpperLetter = true))
    ∧ (ColumnValidator.validate s = (true, none)
      ↔ ColumnValidator.regexColMatch s = true)
    ∧ (ColumnValidator.validate s = (false, some "INVALID_COLUMN_FORMAT".data)
      ↔ (¬(2 < s.length ∧ s.all isUpperLetter = true)
          ∧ ColumnValidator.regexColMatch s = false))
    ∧ (ColumnValidator.regexColMatch s = true → ColumnValidator.to_index s ≤ 701) := by
  by_cases hP : (2 < s.length && ColumnValidator.pyIsUpper s && ColumnValidator.pyIsAlpha s) = true
  · have hPiff := (ColumnValidator.precheck_iff s).mp hP
    have hR := ColumnValidator.precheck_not_regex s hP
    have hval : ColumnValidator.validate s = (false, some "COLUMN_OUT_OF_RANGE".data) := by
      unfold ColumnValidator.validate
      rw [if_pos hP]
    refine ⟨?_, ?_, ?_, ?_⟩
    · exact ⟨fun _ => hPiff, fun _ => hval⟩
    · constructor
      · intro hc; rw [hval] at hc; simp at hc
      · intro hc; rw [hc] at hR; cases hR
    · constructor
      · intro hc; rw [hval] at hc; simp at hc
      · intro ⟨hx, _⟩; exact absurd hPiff hx
    · intro hc; rw [hc] at hR; cases hR
  · have hPiff : ¬(2 < s.length ∧ s.all isUpperLetter = true) := by
      intro hx
      exact hP ((ColumnValidator.precheck_iff s).mpr hx)
    by_cases hR : ColumnValidator.regexColMatch s = true
    · have hle := ColumnValidator.regex_implies_index_le s hR
      have hval : ColumnValidator.validate s = (true, none) := by
        unfold ColumnValidator.validate
        rw [if_neg hP, if_neg (by simp [hR]), if_neg (by simp [ColumnValidator.MAX_COLUMN_INDEX]; omega)]
      refine ⟨?_, ?_, ?_, fun _ => hle⟩
      · constructor
        · intro hc; rw [hval] at hc; simp at hc
        · intro hx; exact absurd hx hPiff
      · exact ⟨fun _ => hR, fun _ => hval⟩
      · constructor
        · intro hc; rw [hval] at hc; simp at hc
        · intro ⟨_, hx⟩; rw [hx] at hR; cases hR
    · have hR' : ColumnValidator.regexColMatch s = false := by
        revert hR; cases ColumnValidator.regexColMatch s <;> simp
      have hval : ColumnValidator.validate s = (false, some "INVALID_COLUMN_FORMAT".data) := by
        unfold ColumnValidator.validate
        rw [if_neg hP, if_pos (by simp [hR'])]
      refine ⟨?_, ?_, ?_, ?_⟩
      · constructor
        · intro hc; rw [hval] at hc; simp at hc
        · intro hx; exact absurd hx hPiff
      · constructor
        · intro hc; rw [hval] at hc; simp at hc
        · intro hc; rw [hc] at hR'; cases hR'
      · exact ⟨fun _ => ⟨hPiff, hR'⟩, fun _ => hval⟩
      · intro hc; rw [hc] at hR'; cases hR'

/-- Witness for the amended C3 at concrete inputs: `"AAA"` is out of range,
`"ZZ"` is valid, `"A1"` is an invalid format, and `"ZZ"` encodes within
range. -/
theorem C3_validate_classification_witness :
    ColumnValidator.validate "AAA".data = (false, some "COLUMN_OUT_OF_RANGE".data)
    ∧ ColumnValidator.validate "ZZ".data = (true, none)
    ∧ ColumnValidator.validate "A1".data = (false, some "INVALID_COLUMN_FORMAT".data)
    ∧ ColumnValidator.to_index "ZZ".data ≤ 701 :=
  ⟨(C3_validate_classification_amended "AAA".data (by decide)).1.mpr (by decide),
    (C3_validate_classification_amended "ZZ".data (by decide)).2.1.mpr (by decide),
    (C3_validate_classification_amended "A1".data (by decide)).2.2.1.mpr (by decide),
    (C3_validate_classification_amended "ZZ".data (by decide)).2.2.2 (by decide)⟩

/-! ## ColumnMappingConfiguration (`src/backend/src/models/column_mapping.py`) -/

/-- Python `set(...)` construction: insert elements left to right, keeping the
first occurrence of each distinct element.  Only the cardinality is used by
the source (`len(set(columns))`). -/
def pySet (l : List (List Char)) : List (List Char) :=
  l.foldl (fun acc x => if x ∈ acc then acc else acc ++ [x]) []

/-- Insertion-ordered dictionary update used to model
`column_to_fields[column].append(field)` after a `if column not in ...:`
guard: append to the entry if the key exists, else add a new entry at the
end. -/
def assocAppend : List (List Char × List (List Char)) → List Char → List Char →
    List (List Char × List (List Char))
  | [], k, v => [(k, [v])]
  | (k0, vs) :: rest, k, v =>
    if k0 = k then (k0, vs ++ [v]) :: rest else (k0, vs) :: assocAppend rest k v

/-- The `ColumnMappingConfiguration` dataclass: three column references. -/
structure ColumnMappingConfiguration where
  date_column : List Char
  description_column : List Char
  price_column : List Char

namespace ColumnMappingConfiguration

/-- `ColumnMappingConfiguration.validate`: non-blank checks in field order then
`ColumnValidator.validate` per field, returning the first failure. -/
def validate (m : ColumnMappingConfiguration) : Bool × Option (List Char) :=
  if m.date_column.isEmpty || (pyStrip m.date_column).isEmpty then
    (false, some "date_column is required".data)
  else if m.description_column.isEmpty || (pyStrip m.description_column).isEmpty then
    (false, some "description_column is required".data)
  else if m.price_column.isEmpty || (pyStrip m.price_column).isEmpty then
    (false, some "price_column is required".data)
  else
    let r1 := ColumnValidator.validate m.date_column
    if !r1.1 then (false, some ("date_column: ".data ++ r1.2.getD []))
    else
      let r2 := ColumnValidator.validate m.description_column
      if !r2.1 then (false, some ("description_column: ".data ++ r2.2.getD []))
      else
        let r3 := ColumnValidator.validate m.price_column
        if !r3.1 then (false, some ("price_column: ".data ++ r3.2.getD []))
        else (true, none)

/-- `ColumnMappingConfiguration.get_column_index`. -/
def get_column_index (column_ref : List Char) : Int :=
  ColumnValidator.to_index column_ref

/-- `ColumnMappingConfiguration.has_duplicates`:
`len(columns) != len(set(columns))`. -/
def has_duplicates (m : ColumnMappingConfiguration) : Bool :=
  let columns := [m.date_column, m.description_column, m.price_column]
  decide (columns.length ≠ (pySet columns).length)

/-- `ColumnMappingConfiguration.get_duplicate_columns`: map each column to its
field names in declaration order, then keep the columns with at least two
fields. -/
def get_duplicate_columns (m : ColumnMappingConfiguration) :
    List (List Char × List (List Char)) :=
  let fields := [(m.date_column, "date".data), (m.description_column, "description".data),
    (m.price_column, "price".data)]
  let column_to_fields := fields.foldl (fun acc kv => assocAppend acc kv.1 kv.2) []
  column_to_fields.filter fun kv => 1 < kv.2.length

end ColumnMappingConfiguration

/-! ### Support lemmas for C9 -/

theorem validator_pass_strip_ne (s : List Char)
    (h : (ColumnValidator.validate s).1 = true) :
    s.isEmpty = false ∧ (pyStrip s).isEmpty = false := by
  have hreg : ColumnValidator.regexColMatch s = true := by
    by_contra hn
    have hr : ColumnValidator.regexColMatch s = false := by
      revert hn; cases ColumnValidator.regexColMatch s <;> simp
    unfold ColumnValidator.validate at h
    split at h
    · simp at h
    · rw [if_pos (by simp [hr])] at h
      simp at h
  have hhead : ∃ a rest, s = a :: rest ∧ isUpperLetter a = true := by
    match s, hreg with
    | [a], hreg => exact ⟨a, [], rfl, by simpa [ColumnValidator.regexColMatch] using hreg⟩
    | [a, b], hreg =>
      refine ⟨a, [b], rfl, ?_⟩
      simp only [ColumnValidator.regexColMatch, Bool.and_eq_true] at hreg
      exact hreg.1
    | [a, b, c], hreg =>
      refine ⟨a, [b, c], rfl, ?_⟩
      simp only [ColumnValidator.regexColMatch, Bool.and_eq_true] at hreg
      exact hreg.1.1
  obtain ⟨a, rest, hs, hup⟩ := hhead
  have haws : isPySpace a = false := by
    by_contra hn
    have hps : isPySpace a = true := by
      revert hn; cases isPySpace a <;> simp
    simp only [isUpperLetter, Bool.and_eq_true, decide_eq_true_eq] at hup
    simp only [isPySpace, Bool.or_eq_true, decide_eq_true_eq] at hps
    rcases hps with ((((h | h) | h) | h) | h) | h <;> (rw [h] at hup; exact absurd hup (by decide))
  subst hs
  refine ⟨by simp, ?_⟩
  have hdrop : (a :: rest).dropWhile isPySpace = a :: rest := by
    rw [List.dropWhile_cons, haws]
    simp
  by_contra hne
  have hemp : pyStrip (a :: rest) = [] := by
    revert hne; cases hst : pyStrip (a :: rest) <;> simp
  unfold pyStrip at hemp
  rw [List.reverse_eq_nil_iff, List.dropWhile_eq_nil_iff] at hemp
  rw [hdrop] at hemp
  have := hemp a (by simp)
  rw [haws] at this
  cases this

theorem validator_pass_eq (s : List Char)
    (h : (ColumnValidator.validate s).1 = true) :
    ColumnValidator.validate s = (true, none) := by
  unfold ColumnValidator.validate at h ⊢
  split_ifs at h ⊢ <;> simp_all

theorem pySet_three_len (d e p : List Char) :
    (pySet [d, e, p]).length =
      if e = d then (if p = d then 1 else 2) else (if p = d ∨ p = e then 2 else 3) := by
  simp only [pySet, List.foldl, List.not_mem_nil, if_false, List.nil_append,
    List.mem_singleton, List.mem_cons, List.mem_append]
  split_ifs <;> simp_all

theorem get_duplicate_columns_nil_iff (d e p : List Char) :
    ColumnMappingConfiguration.get_duplicate_columns ⟨d, e, p⟩ = [] ↔
      (¬d = e ∧ ¬d = p ∧ ¬e = p) := by
  by_cases hde : d = e <;> by_cases hdp : d = p <;> by_cases hep : e = p <;>
    simp_all [ColumnMappingConfiguration.get_duplicate_columns, assocAppend]

theorem has_duplicates_iff (d e p : List Char) :
    (ColumnMappingConfiguration.has_duplicates ⟨d, e, p⟩ = true) ↔
      (d = e ∨ d = p ∨ e = p) := by
  simp only [ColumnMappingConfiguration.has_duplicates, decide_eq_true_eq]
  rw [show [d, e, p].length = 3 from rfl, pySet_three_len]
  split_ifs <;> simp_all [eq_comm] <;> tauto

/-- Claim C9: duplicate column assignment is legal and discoverable.  For any
configuration whose three references each pass `ColumnValidator.validate`,
`validate` succeeds even when fields share a reference, and `has_duplicates`
is true exactly when two or three of the fields coincide, equivalently exactly
when `get_duplicate_columns` is non-empty. -/
theorem C9_duplicates_legal_and_discoverable (m : ColumnMappingConfiguration)
    (h1 : (ColumnValidator.validate m.date_column).1 = true)
    (h2 : (ColumnValidator.validate m.description_column).1 = true)
    (h3 : (ColumnValidator.validate m.price_column).1 = true) :
    m.validate = (true, none)
    ∧ (m.has_duplicates = true ↔
        (m.date_column = m.description_column ∨ m.date_column = m.price_column
          ∨ m.description_column = m.price_column))
    ∧ (m.has_duplicates = true ↔ m.get_duplicate_columns ≠ []) := by
  obtain ⟨d, e, p⟩ := m
  simp only at h1 h2 h3
  have b1 := validator_pass_strip_ne _ h1
  have b2 := validator_pass_strip_ne _ h2
  have b3 := validator_pass_strip_ne _ h3
  refine ⟨?_, ?_, ?_⟩
  · unfold ColumnMappingConfiguration.validate
    simp only
    rw [if_neg (by simp [b1.1, b1.2]), if_neg (by simp [b2.1, b2.2]),
      if_neg (by simp [b3.1, b3.2])]
    simp [validator_pass_eq _ h1, validator_pass_eq _ h2, validator_pass_eq _ h3]
  · exact has_duplicates_iff d e p
  · rw [has_duplicates_iff d e p]
    rw [Ne, get_duplicate_columns_nil_iff d e p]
    tauto

/-- Witness for C9 at a concrete configuration: mapping `(A, B, A)` passes
validation, has duplicates, and reports a non-empty duplicate map. -/
theorem C9_duplicates_witness :
    ColumnMappingConfiguration.validate ⟨"A".data, "B".data, "A".data⟩ = (true, none)
    ∧ ColumnMappingConfiguration.has_duplicates ⟨"A".data, "B".data, "A".data⟩ = true
    ∧ ColumnMappingConfiguration.get_duplicate_columns ⟨"A".data, "B".data, "A".data⟩ ≠ [] := by
  obtain ⟨w1, w2, w3⟩ := C9_duplicates_legal_and_discoverable
    ⟨"A".data, "B".data, "A".data⟩ (by decide) (by decide) (by decide)
  exact ⟨w1, w2.mpr (by decide), w3.mp (w2.mpr (by decide))⟩

/-! ## SheetsService.build_mapped_row (`src/backend/src/services/sheets_service.py`) -/

/-- A calendar date as carried by `datetime.date`. -/
structure PyDate where
  year : Nat
  month : Nat
  day : Nat
deriving DecidableEq

/-- Zero-padded decimal rendering used by `strftime` field directives. -/
def padNum (width n : Nat) : List Char :=
  let ds := Nat.toDigits 10 n
  List.replicate (width - ds.length) '0' ++ ds

/-- `date.strftime("%Y-%m-%d")`. -/
def strftime_Ymd (d : PyDate) : List Char :=
  padNum 4 d.year ++ "-".data ++ padNum 2 d.month ++ "-".data ++ padNum 2 d.day

/-- The `GoogleSheetsRow` fields used by `build_mapped_row`.  The price cell is
rendered by `str(float(total_amount))` in the source; the floating-point
rendering lives outside the claims, so the amount type and its rendering are
parameters of the embedding. -/
structure GoogleSheetsRow (α : Type) where
  transaction_date : PyDate
  items : List Char
  total_amount : α

/-- Insertion-ordered dictionary with `Nat` keys modelling `column_values`:
append to the entry if the key exists, else add a new entry at the end. -/
def assocAppendIdx : List (Nat × List (List Char)) → Nat → List Char →
    List (Nat × List (List Char))
  | [], k, v => [(k, [v])]
  | (k0, vs) :: rest, k, v =>
    if k0 = k then (k0, vs ++ [v]) :: rest else (k0, vs) :: assocAppendIdx rest k v

/-- The write step of `build_mapped_row`: a single value is written as is,
multiple values are joined with the literal `" | "` separator. -/
def joinVals (values : List (List Char)) : List Char :=
  if values.length = 1 then values.headD [] else List.intercalate " | ".data values

namespace SheetsService

/-- `SheetsService.build_mapped_row`: compute the three column indices, allocate
`max_index + 1` empty cells, group the three rendered values by index in
declaration order (date, description, price), then write each group, joining
collisions with `" | "`.  Indices are taken through `Int.toNat`; the source
indexes the Python list with the raw `int`, which is nonnegative for every
validated mapping (the hypotheses of the claims keep the embedding in that
domain). -/
def build_mapped_row {α : Type} (render : α → List Char) (row_data : GoogleSheetsRow α)
    (mappings : ColumnMappingConfiguration) : List (List Char) :=
  let date_idx := (ColumnMappingConfiguration.get_column_index mappings.date_column).toNat
  let desc_idx := (ColumnMappingConfiguration.get_column_index mappings.description_column).toNat
  let price_idx := (ColumnMappingConfiguration.get_column_index mappings.price_column).toNat
  let max_index := max date_idx (max desc_idx price_idx)
  let row : List (List Char) := List.replicate (max_index + 1) []
  let cv1 := assocAppendIdx [] date_idx (strftime_Ymd row_data.transaction_date)
  let cv2 := assocAppendIdx cv1 desc_idx row_data.items
  let cv3 := assocAppendIdx cv2 price_idx (render row_data.total_amount)
  cv3.foldl (fun r kv => r.set kv.1 (joinVals kv.2)) row

end SheetsService

/-- The list of rendered values targeting position `k`, in field declaration
order (date, then description, then price); this is the claim's description of
a cell's content before joining. -/
def targetsAt (date_idx desc_idx price_idx : Nat) (dv iv pv : List Char) (k : Nat) :
    List (List Char) :=
  (if date_idx = k then [dv] else []) ++ (if desc_idx = k then [iv] else [])
    ++ (if price_idx = k then [pv] else [])

theorem joinVals_eq_intercalate (vs : List (List Char)) :
    joinVals vs = List.intercalate " | ".data vs := by
  match vs with
  | [] => rfl
  | [v] => simp [joinVals, List.intercalate]
  | a :: b :: rest => rfl

theorem foldl_set_length (cv : List (Nat × List (List Char))) (init : List (List Char)) :
    (cv.foldl (fun r kv => r.set kv.1 (joinVals kv.2)) init).length = init.length := by
  induction cv generalizing init with
  | nil => rfl
  | cons kv rest ih => simp [List.foldl_cons, ih]

theorem foldl_set_getElem?_of_not_mem (cv : List (Nat × List (List Char)))
    (init : List (List Char)) (k : Nat) (h : ∀ kv ∈ cv, kv.1 ≠ k) :
    (cv.foldl (fun r kv => r.set kv.1 (joinVals kv.2)) init)[k]? = init[k]? := by
  induction cv generalizing init with
  | nil => rfl
  | cons kv rest ih =>
    rw [List.foldl_cons, ih _ (fun x hx => h x (List.mem_cons_of_mem kv hx)),
      List.getElem?_set_ne (h kv (List.mem_cons_self kv rest))]

theorem foldl_set_getElem?_of_head (k : Nat) (v : List (List Char))
    (rest : List (Nat × List (List Char))) (init : List (List Char))
    (hrest : ∀ kv ∈ rest, kv.1 ≠ k) (hk : k < init.length) :
    (((k, v) :: rest).foldl (fun r kv => r.set kv.1 (joinVals kv.2)) init)[k]? =
      some (joinVals v) := by
  rw [List.foldl_cons, foldl_set_getElem?_of_not_mem rest _ k hrest]
  simp [List.getElem?_set_self, hk]

theorem foldl_set_getElem?_of_mem (cv : List (Nat × List (List Char)))
    (init : List (List Char)) (k : Nat) (v : List (List Char))
    (h : (k, v) ∈ cv) (hnd : (cv.map Prod.fst).Nodup) (hk : k < init.length) :
    (cv.foldl (fun r kv => r.set kv.1 (joinVals kv.2)) init)[k]? = some (joinVals v) := by
  induction cv generalizing init with
  | nil => cases h
  | cons kv0 rest ih =>
    obtain ⟨k0, v0⟩ := kv0
    rw [List.map_cons, List.nodup_cons] at hnd
    rcases List.mem_cons.mp h with heq | hmem
    · injection heq with hk0 hv0
      subst hk0
      subst hv0
      rw [List.foldl_cons]
      rw [foldl_set_getElem?_of_not_mem rest _ k ?_]
      · simp [List.getElem?_set_self, hk]
      · intro kv hkv
        intro hcontra
        have hm := List.mem_map_of_mem Prod.fst hkv
        rw [hcontra] at hm
        exact hnd.1 hm
    · rw [List.foldl_cons]
      exact ih _ hmem hnd.2 (by rw [List.length_set]; exact hk)

/-- The row array produced by `build_mapped_row` once the three indices and the
three rendered values are known; `build_mapped_row` is definitionally this
core applied to the rendered fields. -/
def buildRowCore (di de pi : Nat) (dv iv pv : List Char) : List (List Char) :=
  (assocAppendIdx (assocAppendIdx (assocAppendIdx [] di dv) de iv) pi pv).foldl
    (fun r kv => r.set kv.1 (joinVals kv.2))
    (List.replicate (max di (max de pi) + 1) [])

theorem buildRowCore_spec (di de pi : Nat) (dv iv pv : List Char) :
    (buildRowCore di de pi dv iv pv).length = max di (max de pi) + 1
    ∧ ∀ k, k < max di (max de pi) + 1 →
        (buildRowCore di de pi dv iv pv)[k]? =
          some (List.intercalate " | ".data (targetsAt di de pi dv iv pv k)) := by
  constructor
  · unfold buildRowCore
    rw [foldl_set_length]
    simp
  · intro k hk
    unfold buildRowCore
    by_cases h1 : di = de
    · subst h1
      by_cases h2 : di = pi
      · subst h2
        have hcv : assocAppendIdx (assocAppendIdx (assocAppendIdx [] di dv) di iv) di pv
            = [(di, [dv, iv, pv])] := by simp [assocAppendIdx]
        rw [hcv]
        by_cases hkd : di = k
        · subst hkd
          rw [foldl_set_getElem?_of_mem _ _ _ [dv, iv, pv] (by simp) (by simp) (by simpa using hk)]
          simp [targetsAt, joinVals_eq_intercalate]
        · rw [foldl_set_getElem?_of_not_mem _ _ _ (by simp [hkd])]
          rw [List.getElem?_replicate, if_pos hk]
          simp [targetsAt, hkd, List.intercalate]
      · have hcv : assocAppendIdx (assocAppendIdx (assocAppendIdx [] di dv) di iv) pi pv
            = [(di, [dv, iv]), (pi, [pv])] := by simp [assocAppendIdx, h2]
        rw [hcv]
        by_cases hkd : di = k
        · subst hkd
          rw [foldl_set_getElem?_of_mem _ _ _ [dv, iv] (by simp) (by simp [h2]) (by simpa using hk)]
          simp [targetsAt, joinVals_eq_intercalate, h2, Ne.symm h2]
        · by_cases hkp : pi = k
          · subst hkp
            rw [foldl_set_getElem?_of_mem _ _ _ [pv] (by simp) (by simp [h2]) (by simpa using hk)]
            simp [targetsAt, joinVals_eq_intercalate, hkd]
          · rw [foldl_set_getElem?_of_not_mem _ _ _ (by simp [hkd, hkp])]
            rw [List.getElem?_replicate, if_pos hk]
            simp [targetsAt, hkd, hkp, List.intercalate]
    · by_cases h2 : di = pi
      · subst h2
        have hcv : assocAppendIdx (assocAppendIdx (assocAppendIdx [] di dv) de iv) di pv
            = [(di, [dv, pv]), (de, [iv])] := by simp [assocAppendIdx, h1, Ne.symm h1]
        rw [hcv]
        by_cases hkd : di = k
        · subst hkd
          rw [foldl_set_getElem?_of_mem _ _ _ [dv, pv] (by simp) (by simp [h1]) (by simpa using hk)]
          simp [targetsAt, joinVals_eq_intercalate, h1, Ne.symm h1]
        · by_cases hke : de = k
          · subst hke
            rw [foldl_set_getElem?_of_mem _ _ _ [iv] (by simp) (by simp [h1]) (by simpa using hk)]
            simp [targetsAt, joinVals_eq_intercalate, hkd]
          · rw [foldl_set_getElem?_of_not_mem _ _ _ (by simp [hkd, hke])]
            rw [List.getElem?_replicate, if_pos hk]
            simp [targetsAt, hkd, hke, List.intercalate]
      · by_cases h3 : de = pi
        · subst h3
          have hcv : assocAppendIdx (assocAppendIdx (assocAppendIdx [] di dv) de iv) de pv
              = [(di, [dv]), (de, [iv, pv])] := by simp [assocAppendIdx, h1, h2]
          rw [hcv]
          by_cases hkd : di = k
          · subst hkd
            rw [foldl_set_getElem?_of_mem _ _ _ [dv] (by simp) (by simp [h1]) (by simpa using hk)]
            simp [targetsAt, joinVals_eq_intercalate, h1, h2, Ne.symm h1, Ne.symm h2]
          · by_cases hke : de = k
            · subst hke
              rw [foldl_set_getElem?_of_mem _ _ _ [iv, pv] (by simp) (by simp [h1]) (by simpa using hk)]
              simp [targetsAt, joinVals_eq_intercalate, hkd]
            · rw [foldl_set_getElem?_of_not_mem _ _ _ (by simp [hkd, hke])]
              rw [List.getElem?_replicate, if_pos hk]
              simp [targetsAt, hkd, hke, List.intercalate]
        · have hcv : assocAppendIdx (assocAppendIdx (assocAppendIdx [] di dv) de iv) pi pv
              = [(di, [dv]), (de, [iv]), (pi, [pv])] := by simp [assocAppendIdx, h1, h2, h3]
          rw [hcv]
          by_cases hkd : di = k
          · subst hkd
            rw [foldl_set_getElem?_of_mem _ _ _ [dv] (by simp) (by simp [h1, h2, h3]) (by simpa using hk)]
            simp [targetsAt, joinVals_eq_intercalate, h1, h2, Ne.symm h1, Ne.symm h2]
          · by_cases hke : de = k
            · subst hke
              rw [foldl_set_getElem?_of_mem _ _ _ [iv] (by simp) (by simp [h1, h2, h3]) (by simpa using hk)]
              simp [targetsAt, joinVals_eq_intercalate, hkd, h3, Ne.symm h3]
            · by_cases hkp : pi = k
              · subst hkp
                rw [foldl_set_getElem?_of_mem _ _ _ [pv] (by simp) (by simp [h1, h2, h3]) (by simpa using hk)]
                simp [targetsAt, joinVals_eq_intercalate, hkd, hke]
              · rw [foldl_set_getElem?_of_not_mem _ _ _ (by simp [hkd, hke, hkp])]
                rw [List.getElem?_replicate, if_pos hk]
                simp [targetsAt, hkd, hke, hkp, List.intercalate]

/-- Claim C2: for a validated column mapping (three well-formed references,
which keeps the embedded `Int.toNat` indices equal to Python's nonnegative
`int` indices) and confirmed field values, `build_mapped_row` returns a list
of length `1 + max(date index, description index, price index)` in which every
position holds exactly the `" | "`-join, in declaration order date,
description, price, of the rendered values of the fields targeting it: the
empty string where no field points, a single rendered value where one field
points, and the joined values where several collide. -/
theorem C2_build_mapped_row_characterization {α : Type} (render : α → List Char)
    (row_data : GoogleSheetsRow α) (m : ColumnMappingConfiguration) (di de pi : Nat)
    (hd : isColRefShape m.date_column = true)
    (he : isColRefShape m.description_column = true)
    (hp : isColRefShape m.price_column = true)
    (hdi : (ColumnMappingConfiguration.get_column_index m.date_column).toNat = di)
    (hde : (ColumnMappingConfiguration.get_column_index m.description_column).toNat = de)
    (hpi : (ColumnMappingConfiguration.get_column_index m.price_column).toNat = pi) :
    (SheetsService.build_mapped_row render row_data m).length = 1 + max di (max de pi)
    ∧ ∀ k, k < 1 + max di (max de pi) →
        (SheetsService.build_mapped_row render row_data m)[k]? =
          some (List.intercalate " | ".data
            (targetsAt di de pi (strftime_Ymd row_data.transaction_date)
              row_data.items (render row_data.total_amount) k)) := by
  have hcore : SheetsService.build_mapped_row render row_data m =
      buildRowCore di de pi (strftime_Ymd row_data.transaction_date)
        row_data.items (render row_data.total_amount) := by
    unfold SheetsService.build_mapped_row buildRowCore
    rw [hdi, hde, hpi]
  obtain ⟨hlen, hcells⟩ := buildRowCore_spec di de pi
    (strftime_Ymd row_data.transaction_date) row_data.items (render row_data.total_amount)
  constructor
  · rw [hcore, hlen, Nat.add_comm]
  · intro k hk
    rw [hcore]
    exact hcells k (by omega)

/-- Witness for C2: the spec's collision example, mappings `(A, B, A)` with the
usual values, yields a 2-element row with `"2024-01-15 | 15.5"` at index 0 and
the description at index 1. -/
theorem C2_build_mapped_row_witness :
    (SheetsService.build_mapped_row (fun v => v)
        ⟨⟨2024, 1, 15⟩, "Coffee; Bagel".data, "15.5".data⟩
        ⟨"A".data, "B".data, "A".data⟩).length = 2
    ∧ (SheetsService.build_mapped_row (fun v => v)
        ⟨⟨2024, 1, 15⟩, "Coffee; Bagel".data, "15.5".data⟩
        ⟨"A".data, "B".data, "A".data⟩)[0]? = some "2024-01-15 | 15.5".data
    ∧ (SheetsService.build_mapped_row (fun v => v)
        ⟨⟨2024, 1, 15⟩, "Coffee; Bagel".data, "15.5".data⟩
        ⟨"A".data, "B".data, "A".data⟩)[1]? = some "Coffee; Bagel".data := by
  obtain ⟨hlen, hcells⟩ := C2_build_mapped_row_characterization (fun v : List Char => v)
    ⟨⟨2024, 1, 15⟩, "Coffee; Bagel".data, "15.5".data⟩
    ⟨"A".data, "B".data, "A".data⟩ 0 1 0 (by decide) (by decide) (by decide) rfl rfl rfl
  refine ⟨by rw [hlen]; omega, ?_, ?_⟩
  · rw [hcells 0 (by decide)]
    decide
  · rw [hcells 1 (by decide)]
    decide

/-! ## A small backtracking regex engine

The parser service uses `re.search` and `re.finditer` on a fixed set of
patterns.  Those patterns are modelled by a regex syntax whose matcher
reproduces Python's backtracking order: alternatives are tried left to right,
greedy repetitions prefer longer matches, and search returns the leftmost
match.  Unbounded repetitions (`+`, `*`) are unrolled to the length of the
subject string, which loses nothing because every repeated body of the
source's patterns consumes at least one character per iteration. -/

inductive RE where
  | eps : RE
  | cls : (Char → Bool) → RE
  | seq : RE → RE → RE
  | alt : RE → RE → RE

/-- All match lengths of `r` against a prefix of `cs`, in Python backtracking
preference order (head = the match the engine commits to). -/
def reMatch : RE → List Char → List Nat
  | .eps, _ => [0]
  | .cls _, [] => []
  | .cls p, c :: _ => if p c then [1] else []
  | .seq a b, cs => (reMatch a cs).flatMap fun n => (reMatch b (cs.drop n)).map fun m => n + m
  | .alt a b, cs => reMatch a cs ++ reMatch b cs

/-- Literal string. -/
def reLit (l : List Char) : RE :=
  l.foldr (fun c r => RE.seq (RE.cls (· = c)) r) RE.eps

/-- Greedy `?`. -/
def reOpt (r : RE) : RE := RE.alt r RE.eps

/-- Greedy `{0,n}`. -/
def reRepUpTo : Nat → RE → RE
  | 0, _ => RE.eps
  | n + 1, r => RE.alt (RE.seq r (reRepUpTo n r)) RE.eps

/-- Exactly `n` copies. -/
def reRepExact : Nat → RE → RE
  | 0, _ => RE.eps
  | n + 1, r => RE.seq r (reRepExact n r)

/-- Greedy `{lo,hi}`. -/
def reRng (lo hi : Nat) (r : RE) : RE :=
  RE.seq (reRepExact lo r) (reRepUpTo (hi - lo) r)

/-- Greedy `+`, unrolled to `bound` iterations. -/
def rePlus (bound : Nat) (r : RE) : RE := RE.seq r (reRepUpTo bound r)

/-- Greedy `*`, unrolled to `bound` iterations. -/
def reStar (bound : Nat) (r : RE) : RE := reRepUpTo bound r

/-- Ordered alternation of a list of regexes. -/
def reAlts : List RE → RE
  | [] => RE.cls fun _ => false
  | [r] => r
  | r :: rest => RE.alt r (reAlts rest)

/-- The committed (preferred) match length at the current position. -/
def reFirst (r : RE) (cs : List Char) : Option Nat := (reMatch r cs).head?

/-- Leftmost search: the first position (scanning left to right) at which the
pattern matches, together with the committed match length. -/
def reSearchAux (r : RE) : List Char → Option (Nat × Nat)
  | [] =>
    match reFirst r [] with
    | some n => some (0, n)
    | none => none
  | c :: rest =>
    match reFirst r (c :: rest) with
    | some n => some (0, n)
    | none => (reSearchAux r rest).map fun pr => (pr.1 + 1, pr.2)

/-- `re.search(...)` returning the matched substring (`match.group()`). -/
def reSearch (r : RE) (cs : List Char) : Option (List Char) :=
  match reSearchAux r cs with
  | some (p, n) => some ((cs.drop p).take n)
  | none => none

/-- `re.search(...) is not None`. -/
def reSearchBool (r : RE) (cs : List Char) : Bool :=
  (reSearchAux r cs).isSome

/-- Anchored match of a prefix pattern followed by a captured-group pattern:
the pre-group options are tried in backtracking order, and for the first one
whose continuation matches, the group boundaries `(end of pre, end of match)`
are returned. -/
def matchPreGrp (pre grp : RE) (cs : List Char) : Option (Nat × Nat) :=
  (reMatch pre cs).findSome? fun n =>
    ((reMatch grp (cs.drop n)).head?).map fun m => (n, n + m)

/-- `re.finditer(...)` collecting `match.group(1)` of every non-overlapping
match, scanning left to right; the group patterns used by the source always
consume at least one character, so the zero-width branch is unreachable and
merely advances the scan.  The recursion is structural on a fuel argument so
the kernel can evaluate it; every step strictly shortens the scanned suffix,
so fuel `length + 1` is always sufficient. -/
def finditerGrpF : Nat → RE → RE → List Char → List (List Char)
  | 0, _, _, _ => []
  | _ + 1, _, _, [] => []
  | fuel + 1, pre, grp, c :: rest =>
    match matchPreGrp pre grp (c :: rest) with
    | some (n, e) =>
      if 0 < e then
        ((c :: rest).drop n).take (e - n) :: finditerGrpF fuel pre grp ((c :: rest).drop e)
      else
        finditerGrpF fuel pre grp rest
    | none => finditerGrpF fuel pre grp rest

/-- `re.finditer` over a whole subject. -/
def finditerGrp (pre grp : RE) (cs : List Char) : List (List Char) :=
  finditerGrpF (cs.length + 1) pre grp cs

/-! ## ParserService (`src/backend/src/services/parser_service.py`) -/

namespace ParserService

/-- Class `\d`. -/
def digitCls : RE := RE.cls isAsciiDigit

/-- Class `[A-Za-z]`. -/
def letterCls : RE := RE.cls isAsciiLetter

/-- Class `[.,]` (equally `[,.]`). -/
def sepCls : RE := RE.cls fun c => c = '.' || c = ','

/-- Pattern `\d{4}-\d{2}-\d{2}` (ISO 8601). -/
def isoRE : RE :=
  .seq (reRepExact 4 digitCls) (.seq (reLit "-".data)
    (.seq (reRepExact 2 digitCls) (.seq (reLit "-".data) (reRepExact 2 digitCls))))

/-- Pattern `\d{2}/\d{2}/\d{4}` (US format). -/
def usRE : RE :=
  .seq (reRepExact 2 digitCls) (.seq (reLit "/".data)
    (.seq (reRepExact 2 digitCls) (.seq (reLit "/".data) (reRepExact 4 digitCls))))

/-- Pattern `\d{2}-\d{2}-\d{4}` (EU format). -/
def euRE : RE :=
  .seq (reRepExact 2 digitCls) (.seq (reLit "-".data)
    (.seq (reRepExact 2 digitCls) (.seq (reLit "-".data) (reRepExact 4 digitCls))))

/-- Pattern `\d{1,2}\s+[A-Za-z]{3,9}\s+\d{4}` (textual, e.g. `22 Sep 2025`). -/
def txt1RE (bound : Nat) : RE :=
  .seq (reRng 1 2 digitCls) (.seq (rePlus bound (RE.cls isPySpace))
    (.seq (reRng 3 9 letterCls) (.seq (rePlus bound (RE.cls isPySpace))
      (reRepExact 4 digitCls))))

/-- Pattern `[A-Za-z]{3}\s+\d{1,2},?\s+\d{4}` (textual, e.g. `Jan 15, 2025`). -/
def txt2RE (bound : Nat) : RE :=
  .seq (reRepExact 3 letterCls) (.seq (rePlus bound (RE.cls isPySpace))
    (.seq (reRng 1 2 digitCls) (.seq (reOpt (RE.cls (· = ',')))
      (.seq (rePlus bound (RE.cls isPySpace)) (reRepExact 4 digitCls)))))

/-- `re.search` for each of the five `DATE_PATTERNS` entries, in order. -/
def dateSearchISO (text : List Char) : Option (List Char) := reSearch isoRE text

def dateSearchUS (text : List Char) : Option (List Char) := reSearch usRE text

def dateSearchEU (text : List Char) : Option (List Char) := reSearch euRE text

def dateSearchT1 (text : List Char) : Option (List Char) := reSearch (txt1RE text.length) text

def dateSearchT2 (text : List Char) : Option (List Char) := reSearch (txt2RE text.length) text

/-- Gregorian leap year as implemented by `datetime`. -/
def isLeap (y : Nat) : Bool := (y % 4 = 0 && y % 100 ≠ 0) || y % 400 = 0

def daysInMonth (y m : Nat) : Nat :=
  if m = 2 then (if isLeap y then 29 else 28)
  else if m = 4 ∨ m = 6 ∨ m = 9 ∨ m = 11 then 30
  else 31

/-- `datetime` date construction: valid exactly for years 1-9999, months 1-12
and days within the month. -/
def mkValidDate (y m d : Nat) : Option PyDate :=
  if 1 ≤ y ∧ y ≤ 9999 ∧ 1 ≤ m ∧ m ≤ 12 ∧ 1 ≤ d ∧ d ≤ daysInMonth y m then
    some ⟨y, m, d⟩
  else none

def digitVal (c : Char) : Nat := c.toNat - 48

def num2 (a b : Char) : Nat := 10 * digitVal a + digitVal b

def num4 (a b c d : Char) : Nat := 1000 * digitVal a + 100 * digitVal b + 10 * digitVal c + digitVal d

/-- `datetime.strptime(s, "%Y-%m-%d").date()` on the shapes produced by the
ISO regex (exactly `dddd-dd-dd`); any other shape fails, as does an invalid
calendar combination. -/
def strptime_Y_m_d : List Char → Option PyDate
  | [y1, y2, y3, y4, s1, m1, m2, s2, d1, d2] =>
    if [y1, y2, y3, y4, m1, m2, d1, d2].all isAsciiDigit && s1 = '-' && s2 = '-' then
      mkValidDate (num4 y1 y2 y3 y4) (num2 m1 m2) (num2 d1 d2)
    else none
  | _ => none

/-- `datetime.strptime(s, "%m/%d/%Y").date()` on the shapes produced by the US
regex (exactly `dd/dd/dddd`). -/
def strptime_m_d_Y : List Char → Option PyDate
  | [m1, m2, s1, d1, d2, s2, y1, y2, y3, y4] =>
    if [m1, m2, d1, d2, y1, y2, y3, y4].all isAsciiDigit && s1 = '/' && s2 = '/' then
      mkValidDate (num4 y1 y2 y3 y4) (num2 m1 m2) (num2 d1 d2)
    else none
  | _ => none

/-- `datetime.strptime(s, "%d-%m-%Y").date()` on the shapes produced by the EU
regex (exactly `dd-dd-dddd`). -/
def strptime_d_m_Y : List Char → Option PyDate
  | [d1, d2, s1, m1, m2, s2, y1, y2, y3, y4] =>
    if [d1, d2, m1, m2, y1, y2, y3, y4].all isAsciiDigit && s1 = '-' && s2 = '-' then
      mkValidDate (num4 y1 y2 y3 y4) (num2 m1 m2) (num2 d1 d2)
    else none
  | _ => none

/-- `DATE_PATTERNS`: for each entry, the `re.search` step, the parse applied to
`matches.group()` (strptime for the three structured formats, the dateutil
collaborator `du` for the two textual ones), and the fixed confidence. -/
def DATE_PATTERNS (du : List Char → Option PyDate) :
    List ((List Char → Option (List Char)) × (List Char → Option PyDate) × ℚ) :=
  [(dateSearchISO, strptime_Y_m_d, 9/10),
   (dateSearchUS, strptime_m_d_Y, 9/10),
   (dateSearchEU, strptime_d_m_Y, 9/10),
   (dateSearchT1, du, 9/10),
   (dateSearchT2, du, 9/10)]

/-- The `for pattern, date_format, confidence in cls.DATE_PATTERNS` loop: on a
search hit, try to parse the matched text; on parse failure or no hit, move to
the next pattern. -/
def tryDatePatterns :
    List ((List Char → Option (List Char)) × (List Char → Option PyDate) × ℚ) →
    List Char → Option (PyDate × ℚ)
  | [], _ => none
  | (srch, prs, conf) :: rest, text =>
    match srch text with
    | some m =>
      match prs m with
      | some d => some (d, conf)
      | none => tryDatePatterns rest text
    | none => tryDatePatterns rest text

/-- `ParserService.extract_date`: structured patterns in priority order, then
the dateutil fuzzy fallback on the whole text with confidence 0.7, else
`(None, 0.0)`.  The dateutil collaborator is the parameter `du`. -/
def extract_date (du : List Char → Option PyDate) (ocr_text : List Char) :
    Option PyDate × ℚ :=
  match tryDatePatterns (DATE_PATTERNS du) ocr_text with
  | some (d, conf) => (some d, conf)
  | none =>
    match du ocr_text with
    | some d => (some d, 7/10)
    | none => (none, 0)

end ParserService

namespace ParserService

/-- `EXCLUSION_KEYWORDS` (a Python set; only membership tests are performed,
so the order below is immaterial). -/
def EXCLUSION_KEYWORDS : List (List Char) :=
  ["subtotal".data, "tax".data, "total".data, "amount".data, "due".data,
   "balance".data, "change".data]

/-- Pattern `x\d+` (quantity marker), `+` unrolled to the line length. -/
def xNumRE (bound : Nat) : RE :=
  .seq (RE.cls (· = 'x')) (rePlus bound digitCls)

/-- The currency-prefix alternation `(?:Rp|USD|\$|€|£)`, tried in this order. -/
def currencyAlt : RE :=
  reAlts [reLit "Rp".data, reLit "USD".data, reLit "$".data, reLit "€".data, reLit "£".data]

/-- `item_amount_pattern`:
`(?:Rp|USD|\$|€|£)?\s*\d{1,3}(?:[.,]\d{3})*(?:[.,]\d{2,3})?`. -/
def itemAmountRE (bound : Nat) : RE :=
  .seq (reOpt currencyAlt) (.seq (reStar bound (RE.cls isPySpace))
    (.seq (reRng 1 3 digitCls)
      (.seq (reStar bound (.seq sepCls (reRepExact 3 digitCls)))
        (reOpt (.seq sepCls (reRng 2 3 digitCls))))))

/-- The per-line body of the `extract_items` loop: `None` when the line is
skipped, otherwise the whitespace-collapsed line that is appended to
`items`. -/
def processItemLine (line : List Char) : Option (List Char) :=
  let line_lower := pyStrip (pyLower line)
  let original_line := pyStrip line
  if line_lower.isEmpty then none
  else if EXCLUSION_KEYWORDS.any (fun kw => pyContains line_lower kw) then none
  else if reSearchBool (xNumRE line_lower.length) line_lower
      || reSearchBool (itemAmountRE line.length) line then
    let cleaned_line := List.intercalate " ".data (pySplitWS original_line)
    if (cleaned_line ≠ [] && cleaned_line.all isAsciiDigit)
        || 15 < (pyReplace (pyReplace cleaned_line ' ' []) '.' []).length then
      none
    else some cleaned_line
  else none

/-- `ParserService.extract_items`: keep the filtered lines, join with `"; "`,
truncate to 500 characters, confidence 0.85; `(None, 0.0)` when no line
survives. -/
def extract_items (ocr_text : List Char) : Option (List Char) × ℚ :=
  let lines := pySplitChar '\n' ocr_text
  let items := lines.filterMap processItemLine
  match items with
  | [] => (none, 0)
  | _ :: _ =>
    let concatenated := List.intercalate "; ".data items
    let truncated := if 500 < concatenated.length then concatenated.take 500 else concatenated
    (some truncated, 85/100)

/-- First `amount_patterns` entry, prefix part:
`(?:Rp|USD|\$|€|£)?\s*` before the capture group. -/
def amountPre1 (bound : Nat) : RE :=
  .seq (reOpt currencyAlt) (reStar bound (RE.cls isPySpace))

/-- First `amount_patterns` entry, capture group:
`(\d{1,3}(?:[.,]\d{3})*(?:[.,]\d{2})?)`. -/
def amountGrp1 (bound : Nat) : RE :=
  .seq (reRng 1 3 digitCls)
    (.seq (reStar bound (.seq sepCls (reRepExact 3 digitCls)))
      (reOpt (.seq sepCls (reRepExact 2 digitCls))))

/-- Second `amount_patterns` entry, prefix part: `\$?\s*`. -/
def amountPre2 (bound : Nat) : RE :=
  .seq (reOpt (reLit "$".data)) (reStar bound (RE.cls isPySpace))

/-- Second `amount_patterns` entry, capture group: `(\d+[,.]?\d*\.?\d{2})`. -/
def amountGrp2 (bound : Nat) : RE :=
  .seq (rePlus bound digitCls) (.seq (reOpt sepCls)
    (.seq (reStar bound digitCls) (.seq (reOpt (RE.cls (· = '.'))) (reRepExact 2 digitCls))))

/-- The separator disambiguation applied to a candidate near a `total` line
(`extract_total_amount`, first phase), including the final removal of
spaces. -/
def clean_total_candidate (amount_str : List Char) : List Char :=
  let s :=
    if amount_str.contains '.' && amount_str.contains ',' then
      if pyRindex amount_str ',' < pyRindex amount_str '.' then
        pyReplace amount_str ',' []
      else
        pyReplace (pyReplace amount_str '.' []) ',' ['.']
    else if amount_str.contains '.' then
      if ((pySplitChar '.' amount_str).getLastD []).length = 3 then
        pyReplace amount_str '.' []
      else amount_str
    else if amount_str.contains ',' then
      if ((pySplitChar ',' amount_str).getLastD []).length = 2 then
        pyReplace amount_str ',' ['.']
      else
        pyReplace amount_str ',' []
    else amount_str
  pyReplace s ' ' []

/-- A candidate near a `total` line: clean, reject phone-number-like strings
(more than 10 characters ignoring dots), then `Decimal`. -/
def parse_total_candidate (amount_str : List Char) : Option Dec :=
  let t := clean_total_candidate amount_str
  if 10 < (pyReplace t '.' []).length then none
  else pyDecimal t

/-- The candidate cleaning of the global fallback phase: only the
dot-as-thousands rule, then removal of every comma and space. -/
def clean_fallback_candidate (amount_str : List Char) : List Char :=
  let s :=
    if amount_str.contains '.'
        && ((pySplitChar '.' amount_str).getLastD []).length = 3 then
      pyReplace amount_str '.' []
    else amount_str
  pyReplace (pyReplace s ',' []) ' ' []

/-- A candidate of the global fallback phase: phone-number guard on the fully
stripped candidate, then the fallback cleaning and `Decimal`. -/
def parse_fallback_candidate (amount_str : List Char) : Option Dec :=
  let stripped := pyReplace (pyReplace (pyReplace amount_str ',' []) ' ' []) '.' []
  if 10 < stripped.length then none
  else pyDecimal (clean_fallback_candidate amount_str)

/-- Does this line trigger the `total`-adjacent search
(`'total' in line_lower and 'subtotal' not in line_lower`)? -/
def isTotalLine (line : List Char) : Bool :=
  pyContains (pyLower line) "total".data && !(pyContains (pyLower line) "subtotal".data)

/-- The slice `lines[max(0, i-1):min(len(lines), i+2)]` (natural-number
subtraction supplies the `max(0, ...)`). -/
def windowSlice (lines : List (List Char)) (i : Nat) : List (List Char) :=
  (lines.drop (i - 1)).take (min lines.length (i + 2) - (i - 1))

/-- All parsed candidates of one searched line, both amount patterns in
order. -/
def lineCandidates (search_line : List Char) : List Dec :=
  [(amountPre1 search_line.length, amountGrp1 search_line.length),
   (amountPre2 search_line.length, amountGrp2 search_line.length)].flatMap
    fun pg => (finditerGrp pg.1 pg.2 search_line).filterMap parse_total_candidate

/-- The `total_candidates` amounts collected by the first phase. -/
def total_candidates_of (ocr_text : List Char) : List Dec :=
  let lines := pySplitChar '\n' ocr_text
  lines.enum.flatMap fun il =>
    if isTotalLine il.2 then (windowSlice lines il.1).flatMap lineCandidates else []

/-- The `amounts` list of the global fallback phase, searching the whole
text. -/
def global_amounts (ocr_text : List Char) : List Dec :=
  [(amountPre1 ocr_text.length, amountGrp1 ocr_text.length),
   (amountPre2 ocr_text.length, amountGrp2 ocr_text.length)].flatMap
    fun pg => (finditerGrp pg.1 pg.2 ocr_text).filterMap parse_fallback_candidate

/-- Python `max` over a nonempty list of amounts (the `[]` value is never
used: both call sites guard non-emptiness). -/
def listMax : List Dec → Dec
  | [] => ⟨0, 0⟩
  | a :: rest => rest.foldl Dec.max2 a

/-- `ParserService.extract_total_amount`: the largest candidate near a `total`
line with confidence 0.95; otherwise the largest candidate anywhere with
confidence 0.75; otherwise `(None, 0.0)`. -/
def extract_total_amount (ocr_text : List Char) : Option Dec × ℚ :=
  match total_candidates_of ocr_text with
  | tc@(_ :: _) => (some (listMax tc), 95/100)
  | [] =>
    match global_amounts ocr_text with
    | [] => (none, 0)
    | amounts@(_ :: _) => (some (listMax amounts), 75/100)

end ParserService

/-! ### Support lemmas: `str.replace` as filter and map -/

theorem pyReplace_nil_eq_filter (s : List Char) (c : Char) :
    pyReplace s c [] = s.filter (· ≠ c) := by
  induction s with
  | nil => rfl
  | cons a rest ih =>
    simp only [pyReplace, List.flatMap_cons] at ih ⊢
    by_cases h : a = c
    · simp [h, ih]
    · simp [h, ih]

theorem pyReplace_single_eq_map (s : List Char) (c d : Char) :
    pyReplace s c [d] = s.map fun x => if x = c then d else x := by
  induction s with
  | nil => rfl
  | cons a rest ih =>
    simp only [pyReplace, List.flatMap_cons] at ih ⊢
    by_cases h : a = c
    · simp [h, ih]
    · simp [h, ih]

theorem pyReplace_of_not_mem (s : List Char) (c : Char) (t : List Char) (h : c ∉ s) :
    pyReplace s c t = s := by
  induction s with
  | nil => rfl
  | cons a rest ih =>
    have ha : a ≠ c := fun he => h (he ▸ List.mem_cons_self a rest)
    have hrest : pyReplace rest c t = rest := ih fun hm => h (List.mem_cons_of_mem a hm)
    simp only [pyReplace, List.flatMap_cons, if_neg ha] at hrest ⊢
    rw [hrest]
    rfl

theorem filter_eq_self_of_not_mem (s : List Char) (c : Char) (h : c ∉ s) :
    s.filter (· ≠ c) = s := by
  rw [List.filter_eq_self]
  intro a ha
  simp only [ne_eq, decide_eq_true_eq]
  intro he
  exact h (he ▸ ha)

/-- Claim C4: the separator disambiguation of `extract_total_amount` for
candidates found near a `total` line.  When both `.` and `,` occur, the
rightmost of the two acts as the decimal separator and the other is stripped
as a thousands separator; when only `.` occurs it is stripped exactly when the
final dot-separated group has three digits; when only `,` occurs it becomes
the decimal point exactly when the final comma-separated group has two digits
and is otherwise stripped.  Candidates produced by the amount regexes never
contain spaces, whence the hypothesis. -/
theorem C4_separator_disambiguation (s : List Char) (hsp : ' ' ∉ s) :
    (s.contains '.' = true → s.contains ',' = true →
      ((pyRindex s ',' < pyRindex s '.' →
        ParserService.clean_total_candidate s = s.filter (· ≠ ','))
      ∧ (pyRindex s '.' < pyRindex s ',' →
        ParserService.clean_total_candidate s =
          (s.filter (· ≠ '.')).map fun c => if c = ',' then '.' else c)))
    ∧ (s.contains '.' = true → s.contains ',' = false →
      ((((pySplitChar '.' s).getLastD []).length = 3 →
        ParserService.clean_total_candidate s = s.filter (· ≠ '.'))
      ∧ (((pySplitChar '.' s).getLastD []).length ≠ 3 →
        ParserService.clean_total_candidate s = s)))
    ∧ (s.contains ',' = true → s.contains '.' = false →
      ((((pySplitChar ',' s).getLastD []).length = 2 →
        ParserService.clean_total_candidate s =
          s.map fun c => if c = ',' then '.' else c)
      ∧ (((pySplitChar ',' s).getLastD []).length ≠ 2 →
        ParserService.clean_total_candidate s = s.filter (· ≠ ',')))) := by
  have hof : ∀ t : List Char, ' ' ∉ t → pyReplace t ' ' [] = t := by
    intro t ht
    rw [pyReplace_nil_eq_filter, filter_eq_self_of_not_mem _ _ ht]
  refine ⟨?_, ?_, ?_⟩
  · intro hdot hcom
    constructor
    · intro hlt
      unfold ParserService.clean_total_candidate
      simp only [hdot, hcom, Bool.and_self, if_true, if_pos hlt]
      rw [pyReplace_nil_eq_filter, pyReplace_nil_eq_filter]
      exact filter_eq_self_of_not_mem _ _ fun hm => hsp (List.mem_of_mem_filter hm)
    · intro hgt
      have hnlt : ¬(pyRindex s ',' < pyRindex s '.') := by omega
      unfold ParserService.clean_total_candidate
      simp only [hdot, hcom, Bool.and_self, if_true, if_neg hnlt]
      rw [pyReplace_nil_eq_filter, pyReplace_single_eq_map, pyReplace_nil_eq_filter]
      refine filter_eq_self_of_not_mem _ _ fun hm => ?_
      obtain ⟨x, hx, hxe⟩ := List.mem_map.mp hm
      by_cases hx' : x = ','
      · rw [if_pos hx'] at hxe
        cases hxe
      · rw [if_neg hx'] at hxe
        exact hsp (hxe ▸ List.mem_of_mem_filter hx)
  · intro hdot hcom
    constructor
    · intro h3
      unfold ParserService.clean_total_candidate
      simp only [hdot, hcom, Bool.and_false, Bool.false_eq_true, if_false, if_true, if_pos h3]
      rw [pyReplace_nil_eq_filter, pyReplace_nil_eq_filter]
      exact filter_eq_self_of_not_mem _ _ fun hm => hsp (List.mem_of_mem_filter hm)
    · intro h3
      unfold ParserService.clean_total_candidate
      simp only [hdot, hcom, Bool.and_false, Bool.false_eq_true, if_false, if_true, if_neg h3]
      exact hof _ hsp
  · intro hcom hdot
    constructor
    · intro h2
      unfold ParserService.clean_total_candidate
      simp only [hdot, hcom, Bool.false_and, Bool.false_eq_true, if_false, if_true, if_pos h2]
      rw [pyReplace_nil_eq_filter, pyReplace_single_eq_map]
      refine filter_eq_self_of_not_mem _ _ fun hm => ?_
      obtain ⟨x, hx, hxe⟩ := List.mem_map.mp hm
      by_cases hx' : x = ','
      · rw [if_pos hx'] at hxe
        cases hxe
      · rw [if_neg hx'] at hxe
        exact hsp (hxe ▸ hx)
    · intro h2
      unfold ParserService.clean_total_candidate
      simp only [hdot, hcom, Bool.false_and, Bool.false_eq_true, if_false, if_true, if_neg h2]
      rw [pyReplace_nil_eq_filter, pyReplace_nil_eq_filter]
      exact filter_eq_self_of_not_mem _ _ fun hm => hsp (List.mem_of_mem_filter hm)

/-- Witness for C4 at concrete candidates, one per branch: `"1,234.56"` (both
separators, dot rightmost), `"1.234,56"` (both separators, comma rightmost),
`"300.150"` (dot as thousands), `"15.95"` (dot as decimal), `"15,95"` (comma
as decimal), `"3,150"` (comma as thousands). -/
theorem C4_separator_disambiguation_witness :
    ParserService.clean_total_candidate "1,234.56".data = "1234.56".data
    ∧ ParserService.clean_total_candidate "1.234,56".data = "1234.56".data
    ∧ ParserService.clean_total_candidate "300.150".data = "300150".data
    ∧ ParserService.clean_total_candidate "15.95".data = "15.95".data
    ∧ ParserService.clean_total_candidate "15,95".data = "15.95".data
    ∧ ParserService.clean_total_candidate "3,150".data = "3150".data := by
  refine ⟨?_, ?_, ?_, ?_, ?_, ?_⟩
  · rw [((C4_separator_disambiguation "1,234.56".data (by decide)).1 (by decide) (by decide)).1
      (by decide)]
    decide
  · rw [((C4_separator_disambiguation "1.234,56".data (by decide)).1 (by decide) (by decide)).2
      (by decide)]
    decide
  · rw [((C4_separator_disambiguation "300.150".data (by decide)).2.1 (by decide) (by decide)).1
      (by decide)]
    decide
  · rw [((C4_separator_disambiguation "15.95".data (by decide)).2.1 (by decide) (by decide)).2
      (by decide)]
  · rw [((C4_separator_disambiguation "15,95".data (by decide)).2.2 (by decide) (by decide)).1
      (by decide)]
    decide
  · rw [((C4_separator_disambiguation "3,150".data (by decide)).2.2 (by decide) (by decide)).2
      (by decide)]
    decide

theorem filter_mid_filter (p q : Char → Bool) (s : List Char) :
    ((s.filter p).filter q).filter p = (s.filter q).filter p := by
  rw [List.filter_filter, List.filter_filter, List.filter_filter]
  refine List.filter_congr ?_
  intro a _
  by_cases hp : p a <;> by_cases hq : q a <;> simp [hp, hq]

/-- Claim C5 fails as stated: the global fallback does not repeat the same
separator disambiguation.  It only applies the dot-as-thousands rule and then
strips every comma, so the comma-decimal candidate `"15,95"` parses to 15.95
near a `total` line but to 1595 in the fallback; on whole texts,
`"Total\n15,95"` yields `(15.95, 0.95)` while `"15,95"` alone yields
`(1595, 0.75)`. -/
theorem C5_fallback_parse_counterexample :
    ¬ (∀ s : List Char,
        ParserService.parse_fallback_candidate s = ParserService.parse_total_candidate s)
    ∧ ParserService.parse_total_candidate "15,95".data = some ⟨1595, 2⟩
    ∧ ParserService.parse_fallback_candidate "15,95".data = some ⟨1595, 0⟩
    ∧ ParserService.extract_total_amount "Total\n15,95".data = (some ⟨1595, 2⟩, 95/100)
    ∧ ParserService.extract_total_amount "15,95".data = (some ⟨1595, 0⟩, 75/100)
    ∧ Dec.eqNum ⟨1595, 2⟩ ⟨1595, 0⟩ = false := by
  refine ⟨fun h => absurd (h "15,95".data) (by decide), by decide, by decide, rfl, rfl, by decide⟩

/-- Claim C5, amended: when no candidate exists on or adjacent to a `total`
line, amount extraction searches the entire text and returns the largest
resulting value with confidence 0.75, but the fallback applies only the
dot-as-thousands rule and strips every comma as a thousands separator; hence a
candidate without a comma parses to the same numeric value in the global
fallback as it would near a `total` line, while comma-decimal candidates such
as `"15,95"` differ. -/
theorem C5_fallback_amended :
    (∀ text : List Char, ParserService.total_candidates_of text = [] →
      ParserService.extract_total_amount text =
        (match ParserService.global_amounts text with
          | [] => (none, 0)
          | a :: rest => (some (ParserService.listMax (a :: rest)), 75/100)))
    ∧ (∀ s : List Char, s.contains ',' = false →
        ParserService.parse_fallback_candidate s = ParserService.parse_total_candidate s) := by
  constructor
  · intro text h
    unfold ParserService.extract_total_amount
    rw [h]
    cases ParserService.global_amounts text <;> rfl
  · intro s hcom
    have hnc : ',' ∉ s := by
      intro hm
      have : s.contains ',' = true := by
        simpa using hm
      rw [this] at hcom
      cases hcom
    have hclean : ParserService.clean_fallback_candidate s =
        ParserService.clean_total_candidate s := by
      unfold ParserService.clean_fallback_candidate ParserService.clean_total_candidate
      simp only [hcom, Bool.and_false, Bool.false_eq_true, if_false]
      by_cases hdot : s.contains '.' = true
      · simp only [hdot, Bool.true_and, if_true]
        by_cases h3 : ((pySplitChar '.' s).getLastD []).length = 3
        · have hcd : decide (((pySplitChar '.' s).getLastD []).length = 3) = true :=
            decide_eq_true h3
          simp only [if_pos h3, if_pos hcd]
          rw [pyReplace_of_not_mem (pyReplace s '.' []) ',' []]
          intro hm
          rw [pyReplace_nil_eq_filter] at hm
          exact hnc (List.mem_of_mem_filter hm)
        · have hcd : ¬(decide (((pySplitChar '.' s).getLastD []).length = 3) = true) := by
            simp only [decide_eq_true_eq]
            exact h3
          simp only [if_neg h3, if_neg hcd]
          rw [pyReplace_of_not_mem s ',' [] hnc]
      · simp only [hdot, Bool.false_and, Bool.false_eq_true, if_false]
        rw [pyReplace_of_not_mem s ',' [] hnc]
    have hguard : pyReplace (ParserService.clean_total_candidate s) '.' [] =
        pyReplace (pyReplace (pyReplace s ',' []) ' ' []) '.' [] := by
      rw [pyReplace_of_not_mem s ',' [] hnc]
      unfold ParserService.clean_total_candidate
      simp only [hcom, Bool.and_false, Bool.false_eq_true, if_false]
      by_cases hdot : s.contains '.' = true
      · simp only [hdot, Bool.true_and, if_true]
        by_cases h3 : ((pySplitChar '.' s).getLastD []).length = 3
        · simp only [if_pos h3]
          rw [pyReplace_nil_eq_filter, pyReplace_nil_eq_filter, pyReplace_nil_eq_filter,
            pyReplace_nil_eq_filter, pyReplace_nil_eq_filter]
          exact filter_mid_filter (· ≠ '.') (· ≠ ' ') s
        · simp only [if_neg h3]
      · simp only [hdot, Bool.false_and, Bool.false_eq_true, if_false]
    unfold ParserService.parse_fallback_candidate ParserService.parse_total_candidate
    rw [pyReplace_of_not_mem s ',' [] hnc] at hguard ⊢
    rw [← hguard, hclean]

/-- Witness for the amended C5: a text with no candidates anywhere returns
`(None, 0.0)` through the fallback, and a comma-free candidate parses equally
in both phases. -/
theorem C5_fallback_amended_witness :
    ParserService.extract_total_amount "no numbers here".data = (none, 0)
    ∧ ParserService.parse_fallback_candidate "15.95".data =
        ParserService.parse_total_candidate "15.95".data := by
  refine ⟨?_, C5_fallback_amended.2 "15.95".data (by decide)⟩
  rw [C5_fallback_amended.1 "no numbers here".data (by decide)]
  rfl

namespace ParserService

/-- The (amended) specification-side description of date extraction: the first
pattern, in the fixed priority order, whose leftmost match parses under its
associated format determines the result with confidence 0.9; only when no
pattern's leftmost match parses does the fuzzy whole-text parse run with
confidence 0.7, and `(None, 0.0)` results when that also fails. -/
def extract_date_spec (du : List Char → Option PyDate) (text : List Char) :
    Option PyDate × ℚ :=
  match (DATE_PATTERNS du).findSome? (fun pat => ((pat.1 text).bind pat.2.1).map fun d => (d, pat.2.2)) with
  | some (d, conf) => (some d, conf)
  | none =>
    match du text with
    | some d => (some d, 7/10)
    | none => (none, 0)

theorem tryDatePatterns_eq_findSome?
    (pats : List ((List Char → Option (List Char)) × (List Char → Option PyDate) × ℚ))
    (text : List Char) :
    tryDatePatterns pats text =
      pats.findSome? fun pat => ((pat.1 text).bind pat.2.1).map fun d => (d, pat.2.2) := by
  induction pats with
  | nil => rfl
  | cons pat rest ih =>
    obtain ⟨srch, prs, conf⟩ := pat
    rw [List.findSome?_cons]
    simp only [tryDatePatterns]
    cases hs : srch text with
    | none => simpa using ih
    | some m =>
      cases hp : prs m with
      | none => simpa [hs, hp] using ih
      | some d => simp [hs, hp]

end ParserService

/-- Claim C6 fails as stated: on text that contains `"09/28/2025"` and no
ISO-form date, the result need not be `(2025-09-28, 0.9)`, because the code
only parses the *leftmost* match of each pattern, abandoning the whole pattern
when that parse fails.  On `"13/13/2025 09/28/2025"` the US pattern's leftmost
match `"13/13/2025"` fails `strptime`, every other structured pattern finds no
match, and the result is the fuzzy-fallback outcome (confidence 0.7 or 0.0),
never 0.9. -/
theorem C6_date_priority_counterexample :
    ¬ (∀ (du : List Char → Option PyDate) (text : List Char),
        pyContains text "09/28/2025".data = true →
        ParserService.dateSearchISO text = none →
        ParserService.extract_date du text = (some ⟨2025, 9, 28⟩, 9/10)) := by
  intro h
  have hc := h (fun _ => none) "13/13/2025 09/28/2025".data (by decide) (by decide)
  rw [show ParserService.extract_date (fun _ => none) "13/13/2025 09/28/2025".data
      = (none, 0) from rfl] at hc
  simp at hc

/-- Claim C6, amended: `extract_date` tries the five patterns in the fixed
priority order ISO, US slash, EU dash, then the two month-name forms; the
first pattern whose *leftmost* match parses successfully under its associated
format determines the result with confidence 0.9; only if no pattern's
leftmost match parses does the fuzzy whole-text fallback run (confidence 0.7,
or `(None, 0.0)` on failure).  In particular, on text with no ISO-form match
whose leftmost `MM/DD/YYYY`-shaped substring parses — for example text whose
only such substring is `"09/28/2025"` — the result is that date with
confidence 0.9. -/
theorem C6_date_priority_amended :
    (∀ (du : List Char → Option PyDate) (text : List Char),
      ParserService.extract_date du text = ParserService.extract_date_spec du text)
    ∧ (∀ (du : List Char → Option PyDate) (text : List Char) (d : PyDate),
        ParserService.dateSearchISO text = none →
        (ParserService.dateSearchUS text).bind ParserService.strptime_m_d_Y = some d →
        ParserService.extract_date du text = (some d, 9/10)) := by
  constructor
  · intro du text
    unfold ParserService.extract_date ParserService.extract_date_spec
    rw [ParserService.tryDatePatterns_eq_findSome?]
    rfl
  · intro du text d h1 h2
    unfold ParserService.extract_date
    simp only [ParserService.DATE_PATTERNS, ParserService.tryDatePatterns, h1]
    cases hs : ParserService.dateSearchUS text with
    | none => rw [hs] at h2; cases h2
    | some m =>
      rw [hs] at h2
      simp only [Option.some_bind] at h2
      simp [h2]

/-- Witness for the amended C6: with a dateutil stub that never parses, text
whose leftmost US-format match is `"09/28/2025"` and which has no ISO match
yields `(2025-09-28, 0.9)`. -/
theorem C6_date_priority_witness :
    ParserService.extract_date (fun _ => none) "Receipt 09/28/2025".data
      = (some ⟨2025, 9, 28⟩, 9/10) :=
  C6_date_priority_amended.2 (fun _ => none) "Receipt 09/28/2025".data
    ⟨2025, 9, 28⟩ (by decide) (by decide)

/-! ## Claim C7: determinism of the extractors and the row builder

The source bodies of `extract_date`, `extract_items`, `extract_total_amount`
and `build_mapped_row` contain no clock read, no randomness and no mutable
state; the only external call, the dateutil collaborator of `extract_date`,
receives nothing but the text (`date_parser.parse(matches.group(), fuzzy=True)`
and `date_parser.parse(ocr_text, fuzzy=True)`).  A run of each function at a
given wall-clock instant is therefore modelled by a wrapper taking the clock
as an extra argument that the translated body never consults. -/

def extract_date_at_time (clock : Nat) (du : List Char → Option PyDate)
    (text : List Char) : Option PyDate × ℚ :=
  let _ := clock
  ParserService.extract_date du text

def extract_items_at_time (clock : Nat) (text : List Char) : Option (List Char) × ℚ :=
  let _ := clock
  ParserService.extract_items text

def extract_total_amount_at_time (clock : Nat) (text : List Char) : Option Dec × ℚ :=
  let _ := clock
  ParserService.extract_total_amount text

def build_mapped_row_at_time {α : Type} (clock : Nat) (render : α → List Char)
    (row_data : GoogleSheetsRow α) (mappings : ColumnMappingConfiguration) :
    List (List Char) :=
  let _ := clock
  SheetsService.build_mapped_row render row_data mappings

/-- Claim C7: all three extractors and the row builder are deterministic
two-run pure functions: two runs at arbitrary wall-clock instants, on
identical inputs and with the same external date-parsing collaborator, return
identical results. -/
theorem C7_extractors_deterministic :
    (∀ (t1 t2 : Nat) (du : List Char → Option PyDate) (text : List Char),
      extract_date_at_time t1 du text = extract_date_at_time t2 du text)
    ∧ (∀ (t1 t2 : Nat) (text : List Char),
      extract_items_at_time t1 text = extract_items_at_time t2 text)
    ∧ (∀ (t1 t2 : Nat) (text : List Char),
      extract_total_amount_at_time t1 text = extract_total_amount_at_time t2 text)
    ∧ (∀ (α : Type) (t1 t2 : Nat) (render : α → List Char)
        (row_data : GoogleSheetsRow α) (mappings : ColumnMappingConfiguration),
      build_mapped_row_at_time t1 render row_data mappings
        = build_mapped_row_at_time t2 render row_data mappings) :=
  ⟨fun _ _ _ _ => rfl, fun _ _ _ => rfl, fun _ _ _ => rfl, fun _ _ _ _ _ _ => rfl⟩

/-! ## Claims C8 and C10: item extraction -/

theorem infix_dropWhile_of_no_ws (n : List Char) (hne : n ≠ [])
    (hws : n.all (fun c => !isPySpace c) = true) :
    ∀ s : List Char, n <:+: s → n <:+: s.dropWhile isPySpace := by
  intro s
  induction s with
  | nil =>
    intro h
    simpa using h
  | cons c rest ih =>
    intro h
    rw [List.dropWhile_cons]
    by_cases hc : isPySpace c = true
    · rw [if_pos hc]
      rcases List.infix_cons_iff.mp h with hpre | hinf
      · exfalso
        match n, hne, hws, hpre with
        | a :: n', _, hws, hpre =>
          obtain ⟨t, ht⟩ := hpre
          injection ht with h1 _
          rw [List.all_cons, Bool.and_eq_true] at hws
          rw [h1, hc] at hws
          exact absurd hws.1 (by simp)
      · exact ih hinf
    · rw [if_neg hc]
      exact h

theorem infix_pyStrip_of_no_ws (n s : List Char) (hne : n ≠ [])
    (hws : n.all (fun c => !isPySpace c) = true) (h : n <:+: s) :
    n <:+: pyStrip s := by
  unfold pyStrip
  have h1 : n <:+: s.dropWhile isPySpace := infix_dropWhile_of_no_ws n hne hws s h
  have h2 : n.reverse <:+: (s.dropWhile isPySpace).reverse := List.reverse_infix.mpr h1
  have hne' : n.reverse ≠ [] := by simpa using hne
  have hws' : (n.reverse.all fun c => !isPySpace c) = true := by simpa using hws
  have h3 : n.reverse <:+: ((s.dropWhile isPySpace).reverse).dropWhile isPySpace :=
    infix_dropWhile_of_no_ws n.reverse hne' hws' _ h2
  have h4 := List.reverse_infix.mpr h3
  simpa using h4

/-- Claim C8: item extraction is total and structural: it returns `(None, 0.0)`
exactly when no line survives the filter, and otherwise
`(s, 0.85)` where `s` is the `"; "`-join of the surviving lines truncated to
500 characters; and no input line containing an exclusion keyword
(case-insensitively, as a substring) ever contributes a surviving line. -/
theorem C8_items_structure (text : List Char) :
    ((pySplitChar '\n' text).filterMap ParserService.processItemLine = [] →
      ParserService.extract_items text = (none, 0))
    ∧ (∀ l ls, (pySplitChar '\n' text).filterMap ParserService.processItemLine = l :: ls →
        ParserService.extract_items text =
          (some ((List.intercalate "; ".data (l :: ls)).take 500), 85/100))
    ∧ (∀ line ∈ pySplitChar '\n' text,
        (∃ kw ∈ ParserService.EXCLUSION_KEYWORDS, kw <:+: pyLower line) →
        ParserService.processItemLine line = none) := by
  refine ⟨?_, ?_, ?_⟩
  · intro h
    unfold ParserService.extract_items
    simp only [h]
  · intro l ls h
    have hsd : "; ".data = [';', ' '] := rfl
    rw [hsd]
    unfold ParserService.extract_items
    simp only [h]
    split_ifs with hlen
    · rfl
    · rw [List.take_of_length_le (by omega)]
  · rintro line hline ⟨kw, hkwm, hkwi⟩
    have hprop : ∀ kw ∈ ParserService.EXCLUSION_KEYWORDS,
        kw ≠ [] ∧ (kw.all fun c => !isPySpace c) = true := by decide
    obtain ⟨hne, hws⟩ := hprop kw hkwm
    have hstrip : kw <:+: pyStrip (pyLower line) :=
      infix_pyStrip_of_no_ws kw (pyLower line) hne hws hkwi
    unfold ParserService.processItemLine
    simp only
    by_cases hemp : (pyStrip (pyLower line)).isEmpty = true
    · rw [if_pos hemp]
    · rw [if_neg hemp, if_pos ?_]
      exact List.any_eq_true.mpr ⟨kw, hkwm, decide_eq_true hstrip⟩

/-- Witness for C8 at a concrete text: a receipt with a `Total` line (excluded)
and two item lines. -/
theorem C8_items_structure_witness :
    ParserService.extract_items "Coffee 3.50\nTotal 10.00\n\nBagel x2 4.00".data
      = (some "Coffee 3.50; Bagel x2 4.00".data, 85/100)
    ∧ ParserService.processItemLine "Total 10.00".data = none := by
  constructor
  · have h := (C8_items_structure "Coffee 3.50\nTotal 10.00\n\nBagel x2 4.00".data).2.1
      "Coffee 3.50".data ["Bagel x2 4.00".data] (by decide)
    rw [h]
    rfl
  · exact (C8_items_structure "Coffee 3.50\nTotal 10.00\n\nBagel x2 4.00".data).2.2
      "Total 10.00".data (by decide) ⟨"total".data, by decide, by decide⟩

/-- Claim C10: every line surviving the item filter has at most 15 characters
after removing only spaces and dots; longer candidate lines are silently
dropped. -/
theorem C10_item_length_filter (text l : List Char)
    (h : l ∈ (pySplitChar '\n' text).filterMap ParserService.processItemLine) :
    (l.filter fun c => !(c = ' ' || c = '.')).length ≤ 15 := by
  obtain ⟨line, hline, hproc⟩ := List.mem_filterMap.mp h
  unfold ParserService.processItemLine at hproc
  simp only at hproc
  split_ifs at hproc with h1 h2 h3 h4 <;> cases hproc
  have hg : ¬(15 < (pyReplace (pyReplace (List.intercalate [' ']
      (pySplitWS (pyStrip line))) ' ' []) '.' []).length) := by
    intro hx
    exact h4 (by simp [hx])
  rw [pyReplace_nil_eq_filter, pyReplace_nil_eq_filter, List.filter_filter] at hg
  have hcongr : List.filter (fun a => decide (a ≠ '.') && decide (a ≠ ' '))
      (List.intercalate [' '] (pySplitWS (pyStrip line)))
      = List.filter (fun c => !(c = ' ' || c = '.'))
        (List.intercalate [' '] (pySplitWS (pyStrip line))) := by
    refine List.filter_congr ?_
    intro a _
    by_cases ha1 : a = ' ' <;> by_cases ha2 : a = '.' <;> simp [ha1, ha2]
  rw [hcongr] at hg
  omega

/-- Witness for C10: a surviving line of a concrete receipt satisfies the
length bound. -/
theorem C10_item_length_filter_witness :
    (("Coffee 3.50".data).filter fun c => !(c = ' ' || c = '.')).length ≤ 15 :=
  C10_item_length_filter "Coffee 3.50\nTotal 10.00\n\nBagel x2 4.00".data
    "Coffee 3.50".data (by decide)
